import Mathlib

/-!
# Verification of the gas-station refueling simulation

This development embeds the program in `src/main.py` (a discrete-event
simulation of a gas station built on a simulation engine) and proves
properties about it.

Conventions of the embedding:

* Virtual time is represented in half-seconds as a `Nat`.  Every delay in
  the program is either an integer number of seconds or an odd number of
  liters divided by the refueling speed 2, so half-seconds make all
  time stamps exact integers (`461.5 s` is `923`).
* The fuel level and all fuel amounts are exact integers (`Int`); every
  amount occurring in the program is a whole number of liters, so the
  floating-point values of the source are represented exactly.  The
  threshold test `level / capacity * 100 < THRESHOLD` is embedded as the
  equivalent exact comparison `100 * level < THRESHOLD * capacity`
  (capacity is positive).
* The simulation engine (environment, event queue, container, resource)
  is the library the source program runs on; its code is not part of this
  repository, so those operations are modelled from the specification.
* The random sequence is the one produced by the host language's seeded
  Mersenne-Twister generator (MT19937, 32 bit), embedded below; the
  program seeds it with 42.
-/

/-! ## Constants of the scenario, from `src/main.py` -/

/-- `GAS_STATION_VOLUME = 200` liters. -/
def GAS_STATION_VOLUME : Int := 200

/-- `THRESHOLD = 10` percent: threshold for calling the tank truck. -/
def THRESHOLD : Int := 10

/-- `FUEL_TANK_SIZE = 50` liters. -/
def FUEL_TANK_SIZE : Nat := 50

/-- `FUEL_TANK_LEVEL = 5, 25`: min/max initial level of car fuel tanks. -/
def FUEL_TANK_LEVEL : Nat × Nat := (5, 25)

/-- `REFUELING_SPEED = 2` liters per second. -/
def REFUELING_SPEED : Nat := 2

/-- `TANK_TRUCK_TIME = 300` seconds for the tank truck to arrive. -/
def TANK_TRUCK_TIME : Nat := 300

/-- `T_INTER = 30, 300`: a car is created every `[30, 300]` seconds. -/
def T_INTER : Nat × Nat := (30, 300)

/-- The run horizon `env.run(until=1000)`, in half-seconds. -/
def HORIZON : Nat := 2000

/-- Evaluation-order helper: pass a natural number to a continuation after
reducing it to a numeral.  Semantically the identity (see `seqN_eq`); it
keeps the evaluation of the long seeding loops iterative. -/
def seqN {α : Type} (n : Nat) (k : Nat → α) : α :=
  match n with
  | 0 => k 0
  | m + 1 => k (m + 1)

/-! ## The seeded random generator

The source calls `random.seed(42)` and `random.randint(a, b)`.  These use
the host MT19937 generator; the functions below are its 32-bit reference
algorithm (state initialization from a key, generation, tempering) and the
`randint` derivation used by the host library: `randint a b` draws
`bitLength (b - a + 1)`-bit integers, rejecting draws `≥ b - a + 1`.

The 624-word state array is encoded as a single natural number in base
`2^32` (digit `i` is word `i`); `mtGet`/`mtSet` read and write one word. -/

/-- `2^32`, the word modulus of the 32-bit Mersenne Twister. -/
def M32 : Nat := 4294967296

/-- Word `i` of a state number. -/
def mtGet (mt i : Nat) : Nat := (mt >>> (32 * i)) % M32

/-- Replace word `i` of a state number by `v`. -/
def mtSet (mt i v : Nat) : Nat :=
  mt - (mtGet mt i <<< (32 * i)) + (v <<< (32 * i))

/-- State of the MT19937 generator: the 624 packed words and the read index. -/
structure RNG where
  mt : Nat
  mti : Nat
deriving DecidableEq, Repr

/-- Loop of MT19937 `init_genrand`: `mt[i] = (1812433253 * (mt[i-1] ^
(mt[i-1] >> 30)) + i) mod 2^32` for `i = 1 .. 623`. -/
def initGenrandLoop : Nat → Nat → Nat → Nat
  | 0, mt, _ => mt
  | k + 1, mt, i =>
    let p := mtGet mt (i - 1)
    seqN (mtSet mt i ((1812433253 * (p ^^^ (p >>> 30)) + i) % M32)) fun mt' =>
      initGenrandLoop k mt' (i + 1)

/-- MT19937 `init_genrand`: fill the state from a 32-bit seed. -/
def initGenrand (s : Nat) : Nat := initGenrandLoop 623 (s % M32) 1

/-- First mixing loop of MT19937 `init_by_array` (runs `max 624 keyLen`
times), combining the state with the key words. -/
def initByArrayLoop1 (key : List Nat) (klen : Nat) :
    Nat → Nat → Nat → Nat → Nat × Nat
  | 0, mt, i, _ => (mt, i)
  | k + 1, mt, i, j =>
    let prev := mtGet mt (i - 1)
    let v := ((mtGet mt i ^^^ ((prev ^^^ (prev >>> 30)) * 1664525))
              + key.getD j 0 + j) % M32
    let mt := mtSet mt i v
    let i := i + 1
    let j := j + 1
    let (mt, i) := if i ≥ 624 then (mtSet mt 0 (mtGet mt 623), 1) else (mt, i)
    let j := if j ≥ klen then 0 else j
    seqN mt fun mt' => initByArrayLoop1 key klen k mt' i j

/-- Second mixing loop of MT19937 `init_by_array` (runs 623 times); the
subtraction of the index is the 32-bit wraparound `x - i mod 2^32`. -/
def initByArrayLoop2 : Nat → Nat → Nat → Nat
  | 0, mt, _ => mt
  | k + 1, mt, i =>
    let prev := mtGet mt (i - 1)
    let v := ((mtGet mt i ^^^ ((prev ^^^ (prev >>> 30)) * 1566083941))
              + (M32 - i % M32)) % M32
    let mt := mtSet mt i v
    let i := i + 1
    let (mt, i) := if i ≥ 624 then (mtSet mt 0 (mtGet mt 623), 1) else (mt, i)
    seqN mt fun mt' => initByArrayLoop2 k mt' i

/-- MT19937 `init_by_array`: seed the state from a key of 32-bit words. -/
def initByArray (key : List Nat) : Nat :=
  let mt := initGenrand 19650218
  let (mt, i) := initByArrayLoop1 key key.length (max 624 key.length) mt 1 0
  let mt := initByArrayLoop2 623 mt i
  mtSet mt 0 2147483648

/-- Seeding with an integer key: the host converts the seed to 32-bit
little-endian chunks; the program's seed 42 yields the key `[42]`.  The
fresh state has `mti = 624` so the first draw twists. -/
def seedRNG (key : List Nat) : RNG :=
  { mt := initByArray key, mti := 624 }

/-- One in-place step of the MT19937 twist at index `i`. -/
def twistOne (mt i : Nat) : Nat :=
  let y := (mtGet mt i &&& 2147483648) ||| (mtGet mt ((i + 1) % 624) &&& 2147483647)
  mtSet mt i ((mtGet mt ((i + 397) % 624)) ^^^ (y >>> 1) ^^^
              (if y % 2 = 1 then 2567483615 else 0))

/-- Loop of the MT19937 twist over indices `0 .. 623`, in place. -/
def twistLoop : Nat → Nat → Nat → Nat
  | 0, mt, _ => mt
  | k + 1, mt, i => seqN (twistOne mt i) fun mt' => twistLoop k mt' (i + 1)

/-- The full MT19937 twist: regenerate all 624 words. -/
def twist (mt : Nat) : Nat := twistLoop 624 mt 0

/-- MT19937 `genrand_uint32`: twist when exhausted, then read and temper. -/
def genrand (g : RNG) : Nat × RNG :=
  let g := if g.mti ≥ 624 then RNG.mk (twist g.mt) 0 else g
  let y := mtGet g.mt g.mti
  let y := y ^^^ (y >>> 11)
  let y := y ^^^ ((y <<< 7) &&& 2636928640)
  let y := y ^^^ ((y <<< 15) &&& 4022730752)
  let y := y ^^^ (y >>> 18)
  (y, RNG.mk g.mt (g.mti + 1))

/-- `getrandbits k` for `k ≤ 32`: the top `k` bits of one 32-bit draw. -/
def getrandbits (k : Nat) (g : RNG) : Nat × RNG :=
  let (y, g') := genrand g
  (y >>> (32 - k), g')

/-- Number of bits of `n` (`n.bit_length()`), with structural fuel. -/
def bitLength : Nat → Nat → Nat
  | _, 0 => 0
  | 0, _ => 0
  | f + 1, n => bitLength f (n / 2) + 1

/-- Rejection loop of `_randbelow`: draw `bitLength n` bits until the
draw is `< n`.  The loop is given fuel; on exhaustion it returns 0
(still `< n`); the fuel is never exhausted in the modelled run. -/
def randbelowAux (n : Nat) : Nat → RNG → Nat × RNG
  | 0, g => (0, g)
  | fuel + 1, g =>
    let (r, g') := getrandbits (bitLength 64 n) g
    if r < n then (r, g') else randbelowAux n fuel g'

/-- `_randbelow n`: a uniform draw in `[0, n)` (0 when `n = 0`). -/
def randbelow (n : Nat) (g : RNG) : Nat × RNG :=
  if n = 0 then (0, g) else randbelowAux n 64 g

/-- `random.randint a b = a + _randbelow (b - a + 1)`. -/
def randint (a b : Nat) (g : RNG) : Nat × RNG :=
  let (r, g') := randbelow (b + 1 - a) g
  (a + r, g')

/-- The generator state after `random.seed(42)`. -/
def rng42 : RNG := seedRNG [42]

/-! ## Engine errors

Modelled from the spec: the engine's error taxonomy.  `InvalidDelay` and
`TimeInversion` cannot be represented by construction (delays are natural
numbers and the queue pops the minimum), so only the two container errors
remain. -/

/-- Engine errors: `OverfillError` and `InvalidAmount`. -/
inductive Err where
  | overfill
  | invalidAmount
deriving DecidableEq, Repr

/-! ## The container

Modelled from the spec: the level-based fuel container with blocking
`get` and immediate `put` is part of the engine library, not of this
repository's source, so it is defined from the specification's words
(§3 Container, §4.2 ContainerGet/ContainerPut).  `π` is the type of
resumption tokens held by waiting `get` requests. -/

/-- A container: a capacity, a current level, and the FIFO queue of
waiting `get` requests `(requested_amount, continuation)`. -/
structure Container (π : Type) where
  capacity : Int
  level : Int
  getQ : List (Int × π)
deriving DecidableEq, Repr

/-- Modelled from the spec: drain the get-wait queue in FIFO order,
granting only requests fully satisfiable with the current level and
stopping at the first head that is not (strict FIFO, no reordering).
Returns the new level, the remaining queue, and the granted
continuations in grant order. -/
def drainAux {π : Type} (level : Int) :
    List (Int × π) → Int × List (Int × π) × List π
  | [] => (level, [], [])
  | (a, p) :: rest =>
    if a ≤ level then
      let (l', q', ps) := drainAux (level - a) rest
      (l', q', p :: ps)
    else (level, (a, p) :: rest, [])

/-- Modelled from the spec: `ContainerPut` is not a suspension; it fails
with an `OverfillError` when `level + amount > capacity` and otherwise
immediately increases the level and drains the get-wait queue.  Returns
the new container and the granted continuations. -/
def containerPut {π : Type} (c : Container π) (a : Int) :
    Except Err (Container π × List π) :=
  if c.level + a > c.capacity then .error .overfill
  else
    let (l', q', ps) := drainAux (c.level + a) c.getQ
    .ok ({ c with level := l', getQ := q' }, ps)

/-- Result of a `ContainerGet`: either granted at once (the level already
reduced) or queued at the tail of the get-wait queue. -/
inductive GetResult (π : Type) where
  | granted (c : Container π)
  | queued (c : Container π)
deriving DecidableEq, Repr

/-- Modelled from the spec: `ContainerGet` validates its amount at request
time (`0 ≤ amount ≤ capacity`, else `InvalidAmount` and nothing is
enqueued); a valid request is granted immediately when the level
suffices, reserving exactly the requested amount, and otherwise waits. -/
def containerGet {π : Type} (c : Container π) (a : Int) (p : π) :
    Except Err (GetResult π) :=
  if a < 0 ∨ a > c.capacity then .error .invalidAmount
  else if a ≤ c.level then .ok (.granted { c with level := c.level - a })
  else .ok (.queued { c with getQ := c.getQ ++ [(a, p)] })

/-! ## The resource

Modelled from the spec: the capacity-limited pump pool with FIFO waiters
(§3 Resource, §4.2 ResourceRequest/ResourceRelease) is engine code not in
this repository, so it is defined from the specification's words. -/

/-- A resource: capacity, number of held slots, FIFO wait queue. -/
structure Resource (π : Type) where
  capacity : Nat
  held : Nat
  waitQ : List π
deriving DecidableEq, Repr

/-- Result of a `ResourceRequest`: granted at once, or queued. -/
inductive ReqResult (π : Type) where
  | now (r : Resource π)
  | queued (r : Resource π)
deriving DecidableEq, Repr

/-- Modelled from the spec: `ResourceRequest` resolves immediately when a
slot is free, otherwise the requester joins the tail of the FIFO wait
queue. -/
def resourceRequest {π : Type} (r : Resource π) (p : π) : ReqResult π :=
  if r.held < r.capacity then .now { r with held := r.held + 1 }
  else .queued { r with waitQ := r.waitQ ++ [p] }

/-- Modelled from the spec: `ResourceRelease` always succeeds; if anyone
waits, the freed slot passes to the head of the wait queue, whose
resumption is returned to be scheduled at the current time; otherwise the
held count drops. -/
def resourceRelease {π : Type} (r : Resource π) : Resource π × Option π :=
  match r.waitQ with
  | p :: rest => ({ r with waitQ := rest }, some p)
  | [] => ({ r with held := r.held - 1 }, none)

/-! ## Processes, events, and the simulation state

The four domain processes of `src/main.py` are embedded as explicit
resumable state machines: a `PC` names the point at which a process is
resumed by the scheduler, and everything between two suspension points
runs synchronously inside one `dispatch` step, exactly as in the source
(only `timeout`, an unsatisfied pump request and an unsatisfied fuel
`get` suspend). -/

/-- Local variables of a `car` process: its number, the time its pump
request was issued (`start = env.now`), and `liters_required`. -/
structure Car where
  idx : Nat
  start : Nat
  liters : Nat
deriving DecidableEq, Repr

/-- Resumption points of the four processes.

* `controlCheck`: `gas_station_control` at the top of its loop.
* `truckInit`: a freshly started `tank_truck` process.
* `truckArrive`: `tank_truck` after its 300 s transit delay.
* `controlResume`: `gas_station_control` resumed after the truck is done.
* `genStart`: a freshly started `car_generator` process.
* `genArrive i`: `car_generator` resumed after the inter-arrival delay;
  it spawns car `i`.
* `carInit i`: a freshly started `car` process.
* `carHavePump c`: a queued car resumed when granted a pump.
* `carHaveFuel c`: a queued car resumed when its fuel `get` is granted.
* `carDone c`: a car resumed after its refueling delay. -/
inductive PC where
  | controlCheck
  | truckInit
  | truckArrive
  | controlResume
  | genStart
  | genArrive (i : Nat)
  | carInit (i : Nat)
  | carHavePump (c : Car)
  | carHaveFuel (c : Car)
  | carDone (c : Car)
deriving DecidableEq, Repr

/-- A scheduled wake-up: due time (half-seconds), sequence number
(creation order), and the resumption point. -/
structure Event where
  time : Nat
  seq : Nat
  pc : PC
deriving DecidableEq, Repr

/-- Observable trace events, mirroring the source's `print` calls: the
truck call, the truck arrival, the refuel amount, a car arrival, and a
car's refueling completion with its elapsed time (half-seconds). -/
inductive TEvent where
  | truckCall (t : Nat)
  | truckArriving (t : Nat)
  | truckRefuel (t : Nat) (amount : Int)
  | carArrive (i : Nat) (t : Nat)
  | carFinish (i : Nat) (t : Nat) (dur : Nat)
deriving DecidableEq, Repr

/-- The whole simulation state: virtual clock, next fresh sequence
number, pending events, the two shared resources, the random generator
and the emitted trace. -/
structure Sim where
  now : Nat
  nextSeq : Nat
  queue : List Event
  fuelPump : Container PC
  gasStation : Resource PC
  rng : RNG
  trace : List TEvent
deriving DecidableEq, Repr

/-- Modelled from the spec: insert an event at `now + delay` with a fresh
sequence number (monotonically increasing, so ties in due time resolve
in creation order).  Delays are natural numbers, so `InvalidDelay`
cannot arise. -/
def schedule (s : Sim) (t : Nat) (pc : PC) : Sim :=
  { s with queue := s.queue ++ [⟨t, s.nextSeq, pc⟩], nextSeq := s.nextSeq + 1 }

/-- Append a trace event (a `print` in the source). -/
def emit (s : Sim) (ev : TEvent) : Sim := { s with trace := s.trace ++ [ev] }

/-- Strict priority of events: earlier due time first, ties by sequence
number (creation order). -/
def EvLt (a b : Event) : Prop :=
  a.time < b.time ∨ (a.time = b.time ∧ a.seq < b.seq)

instance (a b : Event) : Decidable (EvLt a b) := by
  unfold EvLt; infer_instance

/-- The earliest event of a nonempty queue (first minimum under
`(time, seq)`; with pairwise distinct sequence numbers the minimum is
unique). -/
def minBy (e : Event) : List Event → Event
  | [] => e
  | f :: rest => minBy (if EvLt f e then f else e) rest

/-- Modelled from the spec: pop the event with the smallest
`(due_time, sequence)` from the queue. -/
def popMin : List Event → Option (Event × List Event)
  | [] => none
  | e :: rest =>
    let m := minBy e rest
    some (m, (e :: rest).erase m)

/-- `yield env.timeout(liters_required / REFUELING_SPEED)` then the final
print and the pump release: schedule the car's completion after its
refueling time (in half-seconds, `2 * liters / 2 = liters`). -/
def carRefuel (s : Sim) (c : Car) : Sim :=
  schedule s (s.now + 2 * c.liters / REFUELING_SPEED) (.carDone c)

/-- The car continues holding a pump: `yield fuel_pump.get(liters_required)`.
If the level suffices the process continues synchronously into its
refueling delay, otherwise it waits in the container's queue. -/
def carWithPump (s : Sim) (c : Car) : Except Err Sim :=
  match containerGet s.fuelPump (c.liters : Int) (.carHaveFuel c) with
  | .error er => .error er
  | .ok (.granted c') => .ok (carRefuel { s with fuelPump := c' } c)
  | .ok (.queued c') => .ok { s with fuelPump := c' }

/-- `car.release()` at the end of the `with` block: release the pump and,
if a car waits for a pump, schedule the head of the wait queue now. -/
def releasePump (s : Sim) : Sim :=
  match resourceRelease s.gasStation with
  | (r', some p) => schedule { s with gasStation := r' } s.now p
  | (r', none) => { s with gasStation := r' }

/-- One resumption of a process, from `src/main.py`:

* `controlCheck` — `gas_station_control`: if
  `fuel_pump.level / fuel_pump.capacity * 100 < THRESHOLD` print the
  truck call and start `tank_truck`, waiting for it; else
  `yield env.timeout(10)`.
* `truckInit` — `tank_truck`: `yield env.timeout(TANK_TRUCK_TIME)`.
* `truckArrive` — prints, then `fuel_pump.put(capacity - level)`; the
  granted waiters are scheduled now, then the process ends, resuming the
  waiting control process.
* `controlResume` — the control's `yield env.timeout(10)` after the truck.
* `genStart`/`genArrive i` — `car_generator`: spawn car `i` (for
  `genArrive`), then `yield env.timeout(random.randint(*T_INTER))`.
* `carInit i` — `car`: draw `fuel_tank_level`, print the arrival,
  request a pump (continuing synchronously if one is free).
* `carHavePump c` — a queued car granted a pump.
* `carHaveFuel c` — a waiting car granted its fuel.
* `carDone c` — print the elapsed time and release the pump. -/
def dispatch (s : Sim) : PC → Except Err Sim
  | .controlCheck =>
    if 100 * s.fuelPump.level < THRESHOLD * s.fuelPump.capacity then
      .ok (schedule (emit s (.truckCall s.now)) s.now .truckInit)
    else
      .ok (schedule s (s.now + 2 * 10) .controlCheck)
  | .truckInit => .ok (schedule s (s.now + 2 * TANK_TRUCK_TIME) .truckArrive)
  | .truckArrive =>
    let s := emit s (.truckArriving s.now)
    let amount := s.fuelPump.capacity - s.fuelPump.level
    let s := emit s (.truckRefuel s.now amount)
    match containerPut s.fuelPump amount with
    | .error er => .error er
    | .ok (c', granted) =>
      let s := { s with fuelPump := c' }
      let s := granted.foldl (fun s p => schedule s s.now p) s
      .ok (schedule s s.now .controlResume)
  | .controlResume => .ok (schedule s (s.now + 2 * 10) .controlCheck)
  | .genStart =>
    let (d, g) := randint T_INTER.1 T_INTER.2 s.rng
    .ok (schedule { s with rng := g } (s.now + 2 * d) (.genArrive 1))
  | .genArrive i =>
    let s := schedule s s.now (.carInit i)
    let (d, g) := randint T_INTER.1 T_INTER.2 s.rng
    .ok (schedule { s with rng := g } (s.now + 2 * d) (.genArrive (i + 1)))
  | .carInit i =>
    let (f, g) := randint FUEL_TANK_LEVEL.1 FUEL_TANK_LEVEL.2 s.rng
    let s := emit { s with rng := g } (.carArrive i s.now)
    let c : Car := ⟨i, s.now, FUEL_TANK_SIZE - f⟩
    match resourceRequest s.gasStation (.carHavePump c) with
    | .now r' => carWithPump { s with gasStation := r' } c
    | .queued r' => .ok { s with gasStation := r' }
  | .carHavePump c => carWithPump s c
  | .carHaveFuel c => .ok (carRefuel s c)
  | .carDone c =>
    let s := emit s (.carFinish c.idx s.now (s.now - c.start))
    .ok (releasePump s)

/-- Modelled from the spec: one iteration of the run loop — pop the
earliest event; if its due time does not exceed the horizon, advance
`now` (never backwards, since the popped time is minimal) and resume the
owning process; stop (`none`) on an empty queue or when the next due
time would exceed the horizon. -/
def step (s : Sim) : Except Err (Option Sim) :=
  match popMin s.queue with
  | none => .ok none
  | some (e, rest) =>
    if e.time ≤ HORIZON then
      match dispatch { s with now := e.time, queue := rest } e.pc with
      | .ok s' => .ok (some s')
      | .error er => .error er
    else .ok none

/-- Run at most `n` events of the loop. -/
def iter : Nat → Sim → Except Err Sim
  | 0, s => .ok s
  | n + 1, s =>
    match step s with
    | .ok none => .ok s
    | .ok (some s') => iter n s'
    | .error er => .error er

/-- The initial state built by `main()`: a pump pool of capacity 2, a
fuel container of capacity 200 initially full, the control process and
the car generator started (in that order), the generator seeded with 42. -/
def initSim : Sim :=
  let s0 : Sim :=
    { now := 0
      nextSeq := 0
      queue := []
      fuelPump := { capacity := GAS_STATION_VOLUME, level := GAS_STATION_VOLUME, getQ := [] }
      gasStation := { capacity := 2, held := 0, waitQ := [] }
      rng := rng42
      trace := [] }
  schedule (schedule s0 0 .controlCheck) 0 .genStart

/-- The run of `main()`: 150 iterations are more than the number of
events due by the horizon, so the loop has stopped by itself. -/
def runSim (n : Nat) : Except Err Sim := iter n initSim

/-- The state after `n` events of the run (the initial state if the run
errored, which `finalNoError` below rules out). -/
def simAt (n : Nat) : Sim :=
  match runSim n with
  | .ok s => s
  | .error _ => initSim

/-- The trace of the whole run. -/
def finalTrace : List TEvent := (simAt 150).trace

/-- The `(now, level)` pairs after each event of the run, in order: the
container's level trajectory. -/
def trajAux : Nat → Sim → List (Nat × Int)
  | 0, _ => []
  | n + 1, s =>
    match step s with
    | .ok (some s') => (s'.now, s'.fuelPump.level) :: trajAux n s'
    | _ => []

/-- The level trajectory of the run. -/
def traj : List (Nat × Int) := trajAux 150 initSim

/-- The times of all truck-call trace events of the run. -/
def truckCallTimes : List Nat :=
  finalTrace.filterMap fun ev =>
    match ev with
    | .truckCall t => some t
    | _ => none

/-- The `(time, amount)` of all truck-refuel trace events of the run. -/
def truckRefuelEvents : List (Nat × Int) :=
  finalTrace.filterMap fun ev =>
    match ev with
    | .truckRefuel t a => some (t, a)
    | _ => none

/-- The first `(now, level)` of the run with the level below 20 liters:
the virtual instant at which the container's level first drops below 20. -/
def firstDrop : Option (Nat × Int) :=
  traj.find? fun p => decide (p.2 < 20)

/-! ## Relational scheduler semantics

To state that the run is deterministic, the scheduler's choice is given
relationally: a step may resume any pending event that is minimal under
`(due_time, sequence)`.  With pairwise distinct sequence numbers (which
scheduling maintains, since each event gets a fresh one) the minimal
event is unique, so any two executions coincide. -/

/-- Non-strict priority: earlier due time, ties by sequence number. -/
def EvLe (a b : Event) : Prop :=
  a.time < b.time ∨ (a.time = b.time ∧ a.seq ≤ b.seq)

instance (a b : Event) : Decidable (EvLe a b) := by
  unfold EvLe; infer_instance

/-- `e` is a pending event no other pending event beats. -/
def IsNext (e : Event) (q : List Event) : Prop :=
  e ∈ q ∧ ∀ f ∈ q, EvLe e f

instance (e : Event) (q : List Event) : Decidable (IsNext e q) := by
  unfold IsNext; infer_instance

/-- Well-formed scheduler state: pairwise distinct sequence numbers, all
below the next fresh one. -/
def WF (s : Sim) : Prop :=
  (s.queue.map Event.seq).Nodup ∧ ∀ f ∈ s.queue, f.seq < s.nextSeq

/-- One relational step: resume any minimal pending event within the
horizon. -/
def RelStep (s s' : Sim) : Prop :=
  ∃ e, IsNext e s.queue ∧ e.time ≤ HORIZON ∧
    dispatch { s with now := e.time, queue := s.queue.erase e } e.pc = .ok s'

/-- `n` relational steps. -/
inductive RelRun : Nat → Sim → Sim → Prop
  | zero (s : Sim) : RelRun 0 s s
  | succ {n : Nat} {s s' s'' : Sim} :
      RelStep s s' → RelRun n s' s'' → RelRun (n + 1) s s''

/-- `Sat l q`: successively granting the queued requests `q` from level
`l` keeps every grant fully covered (each request sees at least its
amount available when its turn comes) — the all-or-nothing property of a
drain. -/
def Sat {π : Type} : Int → List (Int × π) → Prop
  | _, [] => True
  | l, (a, _) :: rest => a ≤ l ∧ Sat (l - a) rest

/-- The inductive state invariant of the run: the container level is
within bounds, the capacities are the configured ones, every queued get
amount is nonnegative, and at most 2 pump slots are held. -/
def GoodSim (s : Sim) : Prop :=
  0 ≤ s.fuelPump.level ∧ s.fuelPump.level ≤ s.fuelPump.capacity ∧
  s.fuelPump.capacity = GAS_STATION_VOLUME ∧
  (∀ x ∈ s.fuelPump.getQ, 0 ≤ x.1) ∧
  s.gasStation.capacity = 2 ∧ s.gasStation.held ≤ 2

/-! ## Helper lemmas about the container drain -/

set_option maxRecDepth 1000000

/-- `seqN` is the identity: the evaluation-order helper has no semantic
content. -/
theorem seqN_eq {α : Type} (n : Nat) (k : Nat → α) : seqN n k = k n := by
  cases n <;> rfl

theorem drainAux_le {π : Type} (q : List (Int × π)) : ∀ l : Int,
    (∀ x ∈ q, 0 ≤ x.1) → (drainAux l q).1 ≤ l := by
  induction q with
  | nil => intro l _; simp [drainAux]
  | cons hd tl ih =>
    intro l hq
    obtain ⟨a, p⟩ := hd
    have ha0 : (0 : Int) ≤ a := hq (a, p) (List.mem_cons_self _ _)
    by_cases ha : a ≤ l
    · rcases hD : drainAux (l - a) tl with ⟨l', q', ps⟩
      have htl := ih (l - a) (fun x hx => hq x (List.mem_cons_of_mem _ hx))
      rw [hD] at htl
      simp only [drainAux, if_pos ha, hD]
      dsimp at htl ⊢
      omega
    · simp [drainAux, if_neg ha]

theorem drainAux_nonneg {π : Type} (q : List (Int × π)) : ∀ l : Int,
    0 ≤ l → 0 ≤ (drainAux l q).1 := by
  induction q with
  | nil => intro l h; simpa [drainAux] using h
  | cons hd tl ih =>
    intro l h
    obtain ⟨a, p⟩ := hd
    by_cases ha : a ≤ l
    · rcases hD : drainAux (l - a) tl with ⟨l', q', ps⟩
      have htl := ih (l - a) (by omega)
      rw [hD] at htl
      simp only [drainAux, if_pos ha, hD]
      exact htl
    · simpa [drainAux, if_neg ha] using h

theorem drainAux_splits {π : Type} (q : List (Int × π)) : ∀ l : Int,
    ∃ pre, q = pre ++ (drainAux l q).2.1 ∧
      (drainAux l q).2.2 = pre.map Prod.snd ∧
      (drainAux l q).1 = l - (pre.map Prod.fst).sum ∧
      Sat l pre := by
  induction q with
  | nil => intro l; exact ⟨[], by simp [drainAux, Sat]⟩
  | cons hd tl ih =>
    intro l
    obtain ⟨a, p⟩ := hd
    by_cases ha : a ≤ l
    · obtain ⟨pre, h1, h2, h3, h4⟩ := ih (l - a)
      rcases hD : drainAux (l - a) tl with ⟨l', q', ps⟩
      rw [hD] at h1 h2 h3
      dsimp at h1 h2 h3
      have hEq : drainAux l ((a, p) :: tl) = (l', q', p :: ps) := by
        simp only [drainAux, if_pos ha, hD]
      rw [hEq]
      dsimp
      refine ⟨(a, p) :: pre, ?_, ?_, ?_, ha, h4⟩
      · simpa using h1
      · simpa using h2
      · simp only [List.map_cons, List.sum_cons]
        omega
    · exact ⟨[], by simp [drainAux, if_neg ha, Sat]⟩

theorem drainAux_head {π : Type} (q : List (Int × π)) : ∀ (l b : Int) (p : π)
    (rest : List (Int × π)),
    (drainAux l q).2.1 = (b, p) :: rest → (drainAux l q).1 < b := by
  induction q with
  | nil => intro l b p rest h; simp [drainAux] at h
  | cons hd tl ih =>
    intro l b p rest h
    obtain ⟨a, pp⟩ := hd
    by_cases ha : a ≤ l
    · rcases hD : drainAux (l - a) tl with ⟨l', q', ps⟩
      rw [show drainAux l ((a, pp) :: tl) = (l', q', pp :: ps) by
            simp only [drainAux, if_pos ha, hD]] at h ⊢
      have := ih (l - a) b p rest
      rw [hD] at this
      exact this h
    · rw [show drainAux l ((a, pp) :: tl) = (l, (a, pp) :: tl, []) by
            simp [drainAux, if_neg ha]] at h ⊢
      obtain ⟨h1, -⟩ := List.cons.injEq .. ▸ h
      obtain ⟨hab, -⟩ := Prod.mk.injEq .. ▸ h1
      omega

theorem containerGet_valid {π : Type} (c : Container π) (a : Int) (p : π)
    (h0 : 0 ≤ a) (hc : a ≤ c.capacity) :
    containerGet c a p =
      (if a ≤ c.level then .ok (.granted { c with level := c.level - a })
       else .ok (.queued { c with getQ := c.getQ ++ [(a, p)] })) := by
  have : ¬(a < 0 ∨ a > c.capacity) := by omega
  simp only [containerGet, if_neg this]

/-- C3: a `ContainerPut` of amount `a` is never a suspension point (in the
model it is a total synchronous function on the container, returning at
the instant it is issued): it fails with an `OverfillError` exactly when
`level + a > capacity`, and otherwise increases the level by `a` and
drains the queue of waiting gets in FIFO order (the granted continuations
are a prefix of the queue, in order), granting only requests fully
satisfiable from the current level (`Sat`), each in full, and stopping
while the head request exceeds the remaining level. -/
theorem c3_containerPut_immediate_overfill_fifo_drain :
    (∀ {π : Type} (c : Container π) (a : Int),
      containerPut c a = .error .overfill ↔ c.level + a > c.capacity) ∧
    (∀ {π : Type} (c : Container π) (a : Int) (c' : Container π) (ps : List π),
      containerPut c a = .ok (c', ps) →
        c.level + a ≤ c.capacity ∧ c'.capacity = c.capacity ∧
        ∃ pre, c.getQ = pre ++ c'.getQ ∧ ps = pre.map Prod.snd ∧
          Sat (c.level + a) pre ∧
          c'.level = c.level + a - (pre.map Prod.fst).sum ∧
          ∀ b p rest, c'.getQ = (b, p) :: rest → c'.level < b) := by
  constructor
  · intro π c a
    constructor
    · intro h
      by_contra hc
      rcases hD : drainAux (c.level + a) c.getQ with ⟨l', q', ps⟩
      simp [containerPut, if_neg hc, hD] at h
    · intro h
      simp [containerPut, if_pos h]
  · intro π c a c' ps h
    by_cases hc : c.level + a > c.capacity
    · simp [containerPut, if_pos hc] at h
    · rcases hD : drainAux (c.level + a) c.getQ with ⟨l', q', ps'⟩
      simp only [containerPut, if_neg hc, hD] at h
      obtain ⟨hc', hps⟩ := Prod.mk.injEq .. ▸ (Except.ok.injEq .. ▸ h)
      obtain ⟨pre, h1, h2, h3, h4⟩ := drainAux_splits c.getQ (c.level + a)
      have hHead := drainAux_head c.getQ (c.level + a)
      rw [hD] at h1 h2 h3 hHead
      dsimp at h1 h2 h3 hHead
      subst hc'
      subst hps
      refine ⟨by omega, rfl, pre, h1, h2.symm ▸ rfl, h4, ?_, ?_⟩
      · simpa using h3
      · intro b p rest hq
        exact hHead b p rest hq

/-- Witness for C3 at concrete inputs: a put of 195 onto level 10 of
capacity 200 overfills; a put of 5 onto level 10 fits (`10 + 5 ≤ 200`). -/
theorem c3_witness :
    (containerPut (Container.mk 200 10 ([] : List (Int × PC))) 195 = .error .overfill) ∧
    ((10 : Int) + 5 ≤ 200) := by
  constructor
  · exact (c3_containerPut_immediate_overfill_fifo_drain.1
      (Container.mk 200 10 ([] : List (Int × PC))) 195).mpr (by decide)
  · exact (c3_containerPut_immediate_overfill_fifo_drain.2
      (Container.mk 200 10 ([] : List (Int × PC))) 5
      (Container.mk 200 15 ([] : List (Int × PC))) [] rfl).1

/-- C4: a `ContainerGet` whose amount exceeds the container's capacity
(or is negative) fails at request time with an `InvalidAmount` error —
its result is an error carrying no container state, so nothing is ever
enqueued — while a request with `0 ≤ amount ≤ capacity` always succeeds
at request time. -/
theorem c4_get_validation :
    (∀ {π : Type} (c : Container π) (a : Int) (p : π),
        a > c.capacity → containerGet c a p = .error .invalidAmount) ∧
    (∀ {π : Type} (c : Container π) (a : Int) (p : π),
        a < 0 → containerGet c a p = .error .invalidAmount) ∧
    (∀ {π : Type} (c : Container π) (a : Int) (p : π),
        0 ≤ a → a ≤ c.capacity → ∃ r, containerGet c a p = .ok r) := by
  refine ⟨?_, ?_, ?_⟩
  · intro π c a p h
    simp [containerGet, if_pos (Or.inr h)]
  · intro π c a p h
    simp [containerGet, if_pos (Or.inl h)]
  · intro π c a p h0 hc
    rw [containerGet_valid c a p h0 hc]
    by_cases hl : a ≤ c.level
    · exact ⟨_, by rw [if_pos hl]⟩
    · exact ⟨_, by rw [if_neg hl]⟩

/-- Witness for C4 at concrete inputs: a get of 300 liters from the
200-liter container fails `InvalidAmount`; a get of 40 succeeds. -/
theorem c4_witness :
    (containerGet (Container.mk 200 200 ([] : List (Int × PC))) 300 .controlCheck
        = .error .invalidAmount) ∧
    (∃ r, containerGet (Container.mk 200 200 ([] : List (Int × PC))) 40 .controlCheck
        = .ok r) := by
  constructor
  · exact c4_get_validation.1 _ 300 _ (by decide)
  · exact c4_get_validation.2.2 _ 40 _ (by decide) (by decide)

/-- C6: every `ContainerGet` is all-or-nothing.  A valid request within
the current level is granted at once with the level decreased by exactly
the requested amount; a request exceeding the level leaves the level
unchanged and suspends at the tail of the get queue; a drain grants a
FIFO prefix of the queue, each request in full (`Sat`), decreasing the
level by exactly the sum of the granted amounts.  Concretely, in the run
the two cars waiting for 43 and 38 liters at level 12 are both resumed
at the truck's put and the level drops by exactly `43 + 38` from the
refilled 200. -/
theorem c6_all_or_nothing :
    (∀ {π : Type} (c : Container π) (a : Int) (p : π),
        0 ≤ a → a ≤ c.capacity → a ≤ c.level →
        containerGet c a p = .ok (.granted { c with level := c.level - a })) ∧
    (∀ {π : Type} (c : Container π) (a : Int) (p : π),
        0 ≤ a → a ≤ c.capacity → c.level < a →
        containerGet c a p = .ok (.queued { c with getQ := c.getQ ++ [(a, p)] })) ∧
    (∀ {π : Type} (l : Int) (q : List (Int × π)),
        ∃ pre, q = pre ++ (drainAux l q).2.1 ∧
          (drainAux l q).2.2 = pre.map Prod.snd ∧ Sat l pre ∧
          (drainAux l q).1 = l - (pre.map Prod.fst).sum) ∧
    ((simAt 68).fuelPump.level = 12 ∧
     (simAt 68).fuelPump.getQ.map Prod.fst = [43, 38] ∧
     (simAt 69).fuelPump.level = 119 ∧ (119 : Int) = 200 - (43 + 38)) := by
  refine ⟨?_, ?_, ?_, ?_⟩
  · intro π c a p h0 hc hl
    rw [containerGet_valid c a p h0 hc, if_pos hl]
  · intro π c a p h0 hc hl
    rw [containerGet_valid c a p h0 hc, if_neg (by omega)]
  · intro π l q
    obtain ⟨pre, h1, h2, h3, h4⟩ := drainAux_splits q l
    exact ⟨pre, h1, h2, h4, h3⟩
  · exact ⟨by decide, by decide, by decide, by decide⟩

/-- Witness for C6 at concrete inputs: a get of 30 from level 50 grants
exactly 30 (level 20 remains); a get of 30 from level 10 queues. -/
theorem c6_witness :
    (containerGet (Container.mk 200 50 ([] : List (Int × PC))) 30 .controlCheck
        = .ok (.granted (Container.mk 200 20 []))) ∧
    (containerGet (Container.mk 200 10 ([] : List (Int × PC))) 30 .controlCheck
        = .ok (.queued (Container.mk 200 10 [(30, .controlCheck)]))) := by
  constructor
  · exact c6_all_or_nothing.1 (Container.mk 200 50 ([] : List (Int × PC))) 30
      PC.controlCheck (by decide) (by decide) (by decide)
  · exact c6_all_or_nothing.2.1 (Container.mk 200 10 ([] : List (Int × PC))) 30
      PC.controlCheck (by decide) (by decide) (by decide)

/-- C5: pump-slot grants are FIFO.  A request issued while all slots are
held (in the scenario, `capacity = 2` with two holders) joins the tail of
the wait queue, no resumption is scheduled for it and the pool state is
otherwise unchanged, so it can only be granted by a later release; a
release grants exactly the head of the wait queue — the earliest issued
waiting request — scheduling its resumption at the current time; a waiter
is granted by a release if and only if it is the head of the queue. -/
theorem c5_pump_fifo :
    (∀ {π : Type} (r : Resource π) (p : π), ¬ r.held < r.capacity →
        resourceRequest r p = .queued { r with waitQ := r.waitQ ++ [p] }) ∧
    (∀ {π : Type} (r : Resource π) (p : π) (rest : List π), r.waitQ = p :: rest →
        resourceRelease r = ({ r with waitQ := rest }, some p)) ∧
    (∀ {π : Type} (r : Resource π) (p : π),
        (resourceRelease r).2 = some p ↔ r.waitQ.head? = some p) ∧
    (∀ (s : Sim) (i : Nat), ¬ s.gasStation.held < s.gasStation.capacity →
        dispatch s (.carInit i) = .ok
          { s with
            rng := (randint FUEL_TANK_LEVEL.1 FUEL_TANK_LEVEL.2 s.rng).2
            trace := s.trace ++ [.carArrive i s.now]
            gasStation := { s.gasStation with waitQ := s.gasStation.waitQ ++
              [.carHavePump ⟨i, s.now,
                FUEL_TANK_SIZE - (randint FUEL_TANK_LEVEL.1 FUEL_TANK_LEVEL.2 s.rng).1⟩] } }) ∧
    (∀ (s : Sim) (c : Car) (p : PC) (rest : List PC), s.gasStation.waitQ = p :: rest →
        dispatch s (.carDone c) = .ok
          (schedule
            { emit s (.carFinish c.idx s.now (s.now - c.start)) with
              gasStation := { s.gasStation with waitQ := rest } } s.now p)) := by
  refine ⟨?_, ?_, ?_, ?_, ?_⟩
  · intro π r p h
    simp [resourceRequest, if_neg h]
  · intro π r p rest h
    simp [resourceRelease, h]
  · intro π r p
    cases hw : r.waitQ with
    | nil => simp [resourceRelease, hw]
    | cons q rest => simp [resourceRelease, hw]
  · intro s i h
    rcases hr : randint FUEL_TANK_LEVEL.1 FUEL_TANK_LEVEL.2 s.rng with ⟨f, g⟩
    simp [dispatch, hr, emit, resourceRequest, if_neg h]
  · intro s c p rest h
    simp [dispatch, emit, releasePump, resourceRelease, h, schedule]

/-- Witness for C5 at concrete inputs: with both pumps held, a ninth car
arriving at `t = 3.5` is queued and nothing is scheduled for it; a
release of a pool with two waiters grants exactly the first. -/
theorem c5_witness :
    dispatch
        (Sim.mk 7 3 [] (Container.mk 200 100 []) (Resource.mk 2 2 []) (RNG.mk 0 0) [])
        (.carInit 9) =
      .ok (Sim.mk 7 3 [] (Container.mk 200 100 [])
            (Resource.mk 2 2 [.carHavePump (Car.mk 9 7 45)]) (RNG.mk 0 1)
            [.carArrive 9 7]) ∧
    resourceRelease (Resource.mk 2 2 [PC.controlCheck, PC.truckInit]) =
      (Resource.mk 2 2 [PC.truckInit], some PC.controlCheck) := by
  constructor
  · exact (c5_pump_fifo.2.2.2.1
      (Sim.mk 7 3 [] (Container.mk 200 100 []) (Resource.mk 2 2 []) (RNG.mk 0 0) [])
      9 (by decide)).trans (by rfl)
  · exact c5_pump_fifo.2.1 (Resource.mk 2 2 [PC.controlCheck, PC.truckInit])
      PC.controlCheck [PC.truckInit] rfl

theorem randbelowAux_lt (n : Nat) (hn : 0 < n) :
    ∀ (fuel : Nat) (g : RNG), (randbelowAux n fuel g).1 < n := by
  intro fuel
  induction fuel with
  | zero => intro g; simpa [randbelowAux] using hn
  | succ f ih =>
    intro g
    rcases hG : getrandbits (bitLength 64 n) g with ⟨r, g'⟩
    by_cases hr : r < n
    · simp [randbelowAux, hG, if_pos hr]
      exact hr
    · simp only [randbelowAux, hG]
      rw [if_neg hr]
      exact ih g'

theorem randbelow_lt (n : Nat) (hn : 0 < n) (g : RNG) : (randbelow n g).1 < n := by
  rw [randbelow, if_neg (by omega)]
  exact randbelowAux_lt n hn 64 g

theorem randint_bounds (a b : Nat) (hab : a ≤ b) (g : RNG) :
    a ≤ (randint a b g).1 ∧ (randint a b g).1 ≤ b := by
  rcases hR : randbelow (b + 1 - a) g with ⟨r, g'⟩
  have hlt := randbelow_lt (b + 1 - a) (by omega) g
  rw [hR] at hlt
  simp only [randint, hR]
  omega

/-- C9: for every generator state, the amount a car requests,
`liters_required = FUEL_TANK_SIZE - fuel_tank_level` with
`fuel_tank_level = randint 5 25`, lies in `[25, 45]`; it is therefore
strictly positive and strictly below the container capacity 200, so the
`InvalidAmount` branch of the container `get` cannot be taken by any car
of this scenario. -/
theorem c9_liters_always_valid :
    ∀ g : RNG,
      25 ≤ FUEL_TANK_SIZE - (randint FUEL_TANK_LEVEL.1 FUEL_TANK_LEVEL.2 g).1 ∧
      FUEL_TANK_SIZE - (randint FUEL_TANK_LEVEL.1 FUEL_TANK_LEVEL.2 g).1 ≤ 45 ∧
      0 < FUEL_TANK_SIZE - (randint FUEL_TANK_LEVEL.1 FUEL_TANK_LEVEL.2 g).1 ∧
      ((FUEL_TANK_SIZE - (randint FUEL_TANK_LEVEL.1 FUEL_TANK_LEVEL.2 g).1 : Nat) : Int)
        < GAS_STATION_VOLUME ∧
      ∀ (c : Container PC) (p : PC), c.capacity = GAS_STATION_VOLUME →
        ∃ r, containerGet c
          ((FUEL_TANK_SIZE - (randint FUEL_TANK_LEVEL.1 FUEL_TANK_LEVEL.2 g).1 : Nat) : Int)
          p = .ok r := by
  intro g
  obtain ⟨h1, h2⟩ := randint_bounds FUEL_TANK_LEVEL.1 FUEL_TANK_LEVEL.2 (by decide) g
  simp only [show FUEL_TANK_LEVEL.1 = 5 from rfl, show FUEL_TANK_LEVEL.2 = 25 from rfl] at h1 h2
  simp only [show FUEL_TANK_LEVEL.1 = 5 from rfl, show FUEL_TANK_LEVEL.2 = 25 from rfl,
    show FUEL_TANK_SIZE = 50 from rfl, show GAS_STATION_VOLUME = (200 : Int) from rfl]
  refine ⟨by omega, by omega, by omega, by omega, ?_⟩
  intro c p hc
  have h0 : (0 : Int) ≤ ((50 - (randint 5 25 g).1 : Nat) : Int) := by positivity
  have hcap : ((50 - (randint 5 25 g).1 : Nat) : Int) ≤ c.capacity := by
    rw [hc]
    omega
  rw [containerGet_valid c _ p h0 hcap]
  by_cases hl : ((50 - (randint 5 25 g).1 : Nat) : Int) ≤ c.level
  · exact ⟨_, by rw [if_pos hl]⟩
  · exact ⟨_, by rw [if_neg hl]⟩

/-- Witness for C9 at the concrete generator state `⟨0, 0⟩` (where
`randint 5 25` draws 5, so 45 liters are required) and the scenario's
container. -/
theorem c9_witness :
    25 ≤ FUEL_TANK_SIZE - (randint FUEL_TANK_LEVEL.1 FUEL_TANK_LEVEL.2 (RNG.mk 0 0)).1 ∧
    ∃ r, containerGet (Container.mk 200 200 ([] : List (Int × PC)))
      ((FUEL_TANK_SIZE -
        (randint FUEL_TANK_LEVEL.1 FUEL_TANK_LEVEL.2 (RNG.mk 0 0)).1 : Nat) : Int)
      PC.controlCheck = .ok r :=
  ⟨(c9_liters_always_valid (RNG.mk 0 0)).1,
   (c9_liters_always_valid (RNG.mk 0 0)).2.2.2.2
     (Container.mk 200 200 ([] : List (Int × PC))) PC.controlCheck rfl⟩

/-! ## Preservation of the level and slot bounds -/

theorem containerPut_good {π : Type} (c : Container π) (a : Int) (c' : Container π)
    (ps : List π) (h0 : 0 ≤ c.level) (ha : 0 ≤ a)
    (hq : ∀ x ∈ c.getQ, 0 ≤ x.1)
    (h : containerPut c a = .ok (c', ps)) :
    0 ≤ c'.level ∧ c'.level ≤ c.capacity ∧ c'.capacity = c.capacity ∧
    ∀ x ∈ c'.getQ, 0 ≤ x.1 := by
  by_cases hc : c.level + a > c.capacity
  · simp [containerPut, if_pos hc] at h
  · rcases hD : drainAux (c.level + a) c.getQ with ⟨l', q', ps'⟩
    simp only [containerPut, if_neg hc, hD] at h
    have hck : ({ c with level := l', getQ := q' }, ps') = (c', ps) := by
      exact Except.ok.inj h
    obtain ⟨hc', -⟩ := Prod.mk.injEq .. ▸ hck
    subst hc'
    have hle := drainAux_le c.getQ (c.level + a) hq
    have hnn := drainAux_nonneg c.getQ (c.level + a) (by omega)
    rw [hD] at hle hnn
    dsimp at hle hnn
    obtain ⟨pre, hsplit, -, -, -⟩ := drainAux_splits c.getQ (c.level + a)
    rw [hD] at hsplit
    dsimp at hsplit
    refine ⟨hnn, ?_, rfl, ?_⟩
    · show l' ≤ c.capacity
      omega
    · intro x hx
      exact hq x (hsplit ▸ List.mem_append.2 (Or.inr hx))

theorem containerGet_good {π : Type} (c : Container π) (a : Int) (p : π)
    (r : GetResult π) (c' : Container π)
    (hl : 0 ≤ c.level) (hcap : c.level ≤ c.capacity) (hq : ∀ x ∈ c.getQ, 0 ≤ x.1)
    (h : containerGet c a p = .ok r) (hr : r = .granted c' ∨ r = .queued c') :
    0 ≤ c'.level ∧ c'.level ≤ c.capacity ∧ c'.capacity = c.capacity ∧
    ∀ x ∈ c'.getQ, 0 ≤ x.1 := by
  by_cases hv : a < 0 ∨ a > c.capacity
  · simp [containerGet, if_pos hv] at h
  · have ha : 0 ≤ a := by omega
    rw [containerGet_valid c a p ha (by omega)] at h
    by_cases hal : a ≤ c.level
    · rw [if_pos hal] at h
      have := Except.ok.inj h
      rcases hr with hg | hg <;> rw [← this] at hg
      · cases hg
        refine ⟨?_, ?_, rfl, hq⟩
        · show 0 ≤ c.level - a
          omega
        · show c.level - a ≤ c.capacity
          omega
      · cases hg
    · rw [if_neg hal] at h
      have := Except.ok.inj h
      rcases hr with hg | hg <;> rw [← this] at hg
      · cases hg
      · cases hg
        refine ⟨hl, hcap, rfl, ?_⟩
        intro x hx
        rcases List.mem_append.1 hx with hx | hx
        · exact hq x hx
        · rcases List.mem_singleton.1 hx with rfl
          exact ha

theorem goodSim_foldl_schedule (ps : List PC) : ∀ s : Sim,
    GoodSim (ps.foldl (fun s p => schedule s s.now p) s) ↔ GoodSim s := by
  induction ps with
  | nil => intro s; exact Iff.rfl
  | cons p rest ih =>
    intro s
    rw [List.foldl_cons]
    exact ih (schedule s s.now p)

theorem carWithPump_good (s : Sim) (c : Car) (s' : Sim)
    (hg : GoodSim s) (h : carWithPump s c = .ok s') : GoodSim s' := by
  obtain ⟨hg1, hg2, hg3, hg4, hg5, hg6⟩ := hg
  rcases hG : containerGet s.fuelPump (c.liters : Int) (.carHaveFuel c) with er | r
  · rw [carWithPump, hG] at h
    cases h
  · rw [carWithPump, hG] at h
    cases r with
    | granted c' =>
      cases Except.ok.inj h
      obtain ⟨k1, k2, k3, k4⟩ :=
        containerGet_good s.fuelPump _ _ _ c' hg1 hg2 hg4 hG (Or.inl rfl)
      exact ⟨k1, k3 ▸ k2, k3 ▸ hg3, k4, hg5, hg6⟩
    | queued c' =>
      cases Except.ok.inj h
      obtain ⟨k1, k2, k3, k4⟩ :=
        containerGet_good s.fuelPump _ _ _ c' hg1 hg2 hg4 hG (Or.inr rfl)
      exact ⟨k1, k3 ▸ k2, k3 ▸ hg3, k4, hg5, hg6⟩

theorem dispatch_good (s : Sim) (pc : PC) (s' : Sim)
    (hg : GoodSim s) (h : dispatch s pc = .ok s') : GoodSim s' := by
  obtain ⟨hg1, hg2, hg3, hg4, hg5, hg6⟩ := hg
  cases pc with
  | controlCheck =>
    rw [dispatch] at h
    split at h <;> cases Except.ok.inj h <;> exact ⟨hg1, hg2, hg3, hg4, hg5, hg6⟩
  | truckInit =>
    rw [dispatch] at h
    cases Except.ok.inj h
    exact ⟨hg1, hg2, hg3, hg4, hg5, hg6⟩
  | truckArrive =>
    simp only [dispatch, emit, schedule] at h
    rcases hP : containerPut s.fuelPump (s.fuelPump.capacity - s.fuelPump.level)
      with er | ⟨c', ps⟩
    · rw [hP] at h
      cases h
    · rw [hP] at h
      cases Except.ok.inj h
      obtain ⟨k1, k2, k3, k4⟩ := containerPut_good s.fuelPump _ c' ps hg1
        (by omega) hg4 hP
      have hbase : GoodSim { s with
          fuelPump := c'
          trace := s.trace ++ [TEvent.truckArriving s.now] ++
            [TEvent.truckRefuel s.now (s.fuelPump.capacity - s.fuelPump.level)] } :=
        ⟨k1, k3 ▸ k2, k3 ▸ hg3, k4, hg5, hg6⟩
      exact (goodSim_foldl_schedule ps _).2 hbase
  | controlResume =>
    rw [dispatch] at h
    cases Except.ok.inj h
    exact ⟨hg1, hg2, hg3, hg4, hg5, hg6⟩
  | genStart =>
    rw [dispatch] at h
    rcases hr : randint T_INTER.1 T_INTER.2 s.rng with ⟨d, g⟩
    rw [hr] at h
    cases Except.ok.inj h
    exact ⟨hg1, hg2, hg3, hg4, hg5, hg6⟩
  | genArrive i =>
    simp only [dispatch, emit, schedule] at h
    rcases hr : randint T_INTER.1 T_INTER.2 s.rng with ⟨d, g⟩
    rw [hr] at h
    cases Except.ok.inj h
    exact ⟨hg1, hg2, hg3, hg4, hg5, hg6⟩
  | carInit i =>
    simp only [dispatch, emit, schedule] at h
    rcases hr : randint FUEL_TANK_LEVEL.1 FUEL_TANK_LEVEL.2 s.rng with ⟨f, g⟩
    rw [hr] at h
    rcases hR : resourceRequest s.gasStation
        (.carHavePump ⟨i, s.now, FUEL_TANK_SIZE - f⟩) with r' | r'
    · simp only [hR] at h
      rw [resourceRequest] at hR
      split at hR
      · cases ReqResult.now.inj hR
        exact carWithPump_good _ _ _
          (by exact ⟨hg1, hg2, hg3, hg4, hg5, (by omega : s.gasStation.held + 1 ≤ 2)⟩) h
      · cases hR
    · simp only [hR] at h
      cases Except.ok.inj h
      rw [resourceRequest] at hR
      split at hR
      · cases hR
      · cases ReqResult.queued.inj hR
        exact ⟨hg1, hg2, hg3, hg4, hg5, hg6⟩
  | carHavePump c =>
    rw [dispatch] at h
    exact carWithPump_good s c s' ⟨hg1, hg2, hg3, hg4, hg5, hg6⟩ h
  | carHaveFuel c =>
    rw [dispatch] at h
    cases Except.ok.inj h
    exact ⟨hg1, hg2, hg3, hg4, hg5, hg6⟩
  | carDone c =>
    simp only [dispatch, emit, releasePump, schedule] at h
    rcases hR : resourceRelease s.gasStation with ⟨r', op⟩
    rw [hR] at h
    cases op with
    | some p =>
      cases Except.ok.inj h
      rcases hw : s.gasStation.waitQ with _ | ⟨q, rest⟩
      · rw [resourceRelease, hw] at hR
        cases hR
      · rw [resourceRelease, hw] at hR
        obtain ⟨h1, -⟩ := Prod.mk.injEq .. ▸ hR
        subst h1
        exact ⟨hg1, hg2, hg3, hg4, hg5, hg6⟩
    | none =>
      cases Except.ok.inj h
      rcases hw : s.gasStation.waitQ with _ | ⟨q, rest⟩
      · rw [resourceRelease, hw] at hR
        obtain ⟨h1, -⟩ := Prod.mk.injEq .. ▸ hR
        subst h1
        refine ⟨hg1, hg2, hg3, hg4, hg5, ?_⟩
        show s.gasStation.held - 1 ≤ 2
        omega
      · rw [resourceRelease, hw] at hR
        cases hR

theorem step_good (s s' : Sim) (hg : GoodSim s) (h : step s = .ok (some s')) :
    GoodSim s' := by
  rw [step] at h
  rcases hQ : popMin s.queue with - | ⟨e, rest⟩
  · simp only [hQ] at h
    exact Option.noConfusion (Except.ok.inj h)
  · simp only [hQ] at h
    split at h
    · rcases hD : dispatch { s with now := e.time, queue := rest } e.pc with er | s₂
      · simp only [hD] at h
        exact Except.noConfusion h
      · simp only [hD] at h
        cases Option.some.inj (Except.ok.inj h)
        exact dispatch_good { s with now := e.time, queue := rest } e.pc _ hg hD
    · exact Option.noConfusion (Except.ok.inj h)

theorem iter_good : ∀ (n : Nat) (s s' : Sim), GoodSim s → iter n s = .ok s' → GoodSim s' := by
  intro n
  induction n with
  | zero =>
    intro s s' hg h
    cases Except.ok.inj h
    exact hg
  | succ m ih =>
    intro s s' hg h
    rw [iter] at h
    rcases hS : step s with er | os
    · rw [hS] at h
      simp at h
    · rw [hS] at h
      cases os with
      | none =>
        cases Except.ok.inj h
        exact hg
      | some s₂ => exact ih s₂ s' (step_good s s₂ hg hS) h

theorem initSim_good : GoodSim initSim :=
  ⟨by decide, by decide, by decide, by decide, by decide, by decide⟩

/-- C1: every reachable state of the run keeps the fuel container's level
in `[0, capacity]` with `capacity = 200` and the pump pool's held count in
`[0, capacity]` with `capacity = 2` (the held count is a natural number,
nonnegative by construction; its integer cast is stated explicitly); and
each of the four operations — `ContainerPut`, `ContainerGet`,
`ResourceRequest`, `ResourceRelease` — preserves these bounds. -/
theorem c1_bounds_invariant :
    (∀ (n : Nat) (s : Sim), runSim n = .ok s →
      0 ≤ s.fuelPump.level ∧ s.fuelPump.level ≤ s.fuelPump.capacity ∧
      s.fuelPump.capacity = GAS_STATION_VOLUME ∧
      (0 : Int) ≤ (s.gasStation.held : Int) ∧
      s.gasStation.held ≤ s.gasStation.capacity ∧ s.gasStation.capacity = 2) ∧
    (∀ {π : Type} (c : Container π) (a : Int) (c' : Container π) (ps : List π),
      0 ≤ c.level → 0 ≤ a → (∀ x ∈ c.getQ, 0 ≤ x.1) →
      containerPut c a = .ok (c', ps) → 0 ≤ c'.level ∧ c'.level ≤ c.capacity) ∧
    (∀ {π : Type} (c : Container π) (a : Int) (p : π) (r : GetResult π)
      (c' : Container π),
      0 ≤ c.level → c.level ≤ c.capacity → (∀ x ∈ c.getQ, 0 ≤ x.1) →
      containerGet c a p = .ok r → (r = .granted c' ∨ r = .queued c') →
      0 ≤ c'.level ∧ c'.level ≤ c.capacity) ∧
    (∀ {π : Type} (r : Resource π) (p : π) (r' : Resource π),
      r.held ≤ r.capacity →
      (resourceRequest r p = .now r' ∨ resourceRequest r p = .queued r') →
      r'.held ≤ r'.capacity) ∧
    (∀ {π : Type} (r : Resource π) (r' : Resource π) (op : Option π),
      r.held ≤ r.capacity → resourceRelease r = (r', op) → r'.held ≤ r'.capacity) := by
  refine ⟨?_, ?_, ?_, ?_, ?_⟩
  · intro n s h
    obtain ⟨hg1, hg2, hg3, hg4, hg5, hg6⟩ := iter_good n initSim s initSim_good h
    exact ⟨hg1, hg2, hg3, Int.natCast_nonneg _, by omega, hg5⟩
  · intro π c a c' ps h0 ha hq h
    obtain ⟨k1, k2, -, -⟩ := containerPut_good c a c' ps h0 ha hq h
    exact ⟨k1, k2⟩
  · intro π c a p r c' h0 hcap hq h hr
    obtain ⟨k1, k2, -, -⟩ := containerGet_good c a p r c' h0 hcap hq h hr
    exact ⟨k1, k2⟩
  · intro π r p r' hheld hor
    rcases hor with hc | hc <;> rw [resourceRequest] at hc <;> split at hc
    · cases ReqResult.now.inj hc
      show r.held + 1 ≤ r.capacity
      omega
    · cases hc
    · cases hc
    · cases ReqResult.queued.inj hc
      exact hheld
  · intro π r r' op hheld h
    rcases hw : r.waitQ with _ | ⟨q, rest⟩ <;> rw [resourceRelease, hw] at h
    · obtain ⟨h1, -⟩ := Prod.mk.injEq .. ▸ h
      subst h1
      show r.held - 1 ≤ r.capacity
      omega
    · obtain ⟨h1, -⟩ := Prod.mk.injEq .. ▸ h
      subst h1
      exact hheld

/-- Witness for C1: the state reached after 3 events of the run satisfies
the bounds, and a concrete put of 5 liters into an empty container of
capacity 200 lands within them. -/
theorem c1_witness :
    (0 ≤ (simAt 3).fuelPump.level ∧
      (simAt 3).fuelPump.level ≤ (simAt 3).fuelPump.capacity) ∧
    (0 ≤ (Container.mk 200 5 ([] : List (Int × PC))).level ∧
      (Container.mk 200 5 ([] : List (Int × PC))).level ≤
        (Container.mk 200 0 ([] : List (Int × PC))).capacity) := by
  constructor
  · obtain ⟨a, b, -⟩ := c1_bounds_invariant.1 3 (simAt 3) rfl
    exact ⟨a, b⟩
  · exact c1_bounds_invariant.2.1 (Container.mk 200 0 ([] : List (Int × PC))) 5
      (Container.mk 200 5 ([] : List (Int × PC))) [] (by decide) (by decide)
      (by simp) rfl

/-! ## Determinism of the scheduler -/

theorem wf_schedule (s : Sim) (t : Nat) (pc : PC) (h : WF s) : WF (schedule s t pc) := by
  obtain ⟨h1, h2⟩ := h
  constructor
  · show ((s.queue ++ [Event.mk t s.nextSeq pc]).map Event.seq).Nodup
    rw [List.map_append, List.nodup_append]
    refine ⟨h1, by simp, ?_⟩
    intro x hx hx'
    simp only [List.map_cons, List.map_nil, List.mem_singleton] at hx'
    obtain ⟨f, hf, rfl⟩ := List.mem_map.1 hx
    have := h2 f hf
    omega
  · intro f hf
    rcases List.mem_append.1 hf with hf | hf
    · have := h2 f hf
      show f.seq < s.nextSeq + 1
      omega
    · rcases List.mem_singleton.1 hf with rfl
      show s.nextSeq < s.nextSeq + 1
      omega

theorem wf_foldl_schedule (ps : List PC) : ∀ s : Sim, WF s →
    WF (ps.foldl (fun s p => schedule s s.now p) s) := by
  induction ps with
  | nil => intro s h; exact h
  | cons p rest ih =>
    intro s h
    rw [List.foldl_cons]
    exact ih _ (wf_schedule _ _ _ h)

theorem carWithPump_wf (s : Sim) (c : Car) (s' : Sim)
    (hwf : WF s) (h : carWithPump s c = .ok s') : WF s' := by
  rcases hG : containerGet s.fuelPump (c.liters : Int) (.carHaveFuel c) with er | r
  · rw [carWithPump, hG] at h
    cases h
  · rw [carWithPump, hG] at h
    cases r with
    | granted c' =>
      cases Except.ok.inj h
      exact wf_schedule _ _ _ hwf
    | queued c' =>
      cases Except.ok.inj h
      exact hwf

theorem dispatch_wf (s : Sim) (pc : PC) (s' : Sim)
    (hwf : WF s) (h : dispatch s pc = .ok s') : WF s' := by
  cases pc with
  | controlCheck =>
    rw [dispatch] at h
    split at h <;> cases Except.ok.inj h <;> exact wf_schedule _ _ _ hwf
  | truckInit =>
    rw [dispatch] at h
    cases Except.ok.inj h
    exact wf_schedule _ _ _ hwf
  | truckArrive =>
    simp only [dispatch, emit, schedule] at h
    rcases hP : containerPut s.fuelPump (s.fuelPump.capacity - s.fuelPump.level)
      with er | ⟨c', ps⟩
    · rw [hP] at h
      cases h
    · rw [hP] at h
      cases Except.ok.inj h
      refine wf_schedule _ _ _ ?_
      exact wf_foldl_schedule ps _ hwf
  | controlResume =>
    rw [dispatch] at h
    cases Except.ok.inj h
    exact wf_schedule _ _ _ hwf
  | genStart =>
    rw [dispatch] at h
    rcases hr : randint T_INTER.1 T_INTER.2 s.rng with ⟨d, g⟩
    rw [hr] at h
    cases Except.ok.inj h
    exact wf_schedule _ _ _ hwf
  | genArrive i =>
    simp only [dispatch, emit, schedule] at h
    rcases hr : randint T_INTER.1 T_INTER.2 s.rng with ⟨d, g⟩
    rw [hr] at h
    cases Except.ok.inj h
    exact wf_schedule _ _ _ (wf_schedule _ _ _ hwf)
  | carInit i =>
    simp only [dispatch, emit, schedule] at h
    rcases hr : randint FUEL_TANK_LEVEL.1 FUEL_TANK_LEVEL.2 s.rng with ⟨f, g⟩
    rw [hr] at h
    rcases hR : resourceRequest s.gasStation
        (.carHavePump ⟨i, s.now, FUEL_TANK_SIZE - f⟩) with r' | r'
    · simp only [hR] at h
      refine carWithPump_wf _ _ _ ?_ h
      exact hwf
    · simp only [hR] at h
      cases Except.ok.inj h
      exact hwf
  | carHavePump c =>
    rw [dispatch] at h
    exact carWithPump_wf s c s' hwf h
  | carHaveFuel c =>
    rw [dispatch] at h
    cases Except.ok.inj h
    exact wf_schedule _ _ _ hwf
  | carDone c =>
    simp only [dispatch, emit, releasePump, schedule] at h
    rcases hR : resourceRelease s.gasStation with ⟨r', op⟩
    rw [hR] at h
    cases op with
    | some p =>
      cases Except.ok.inj h
      exact wf_schedule _ _ _ hwf
    | none =>
      cases Except.ok.inj h
      exact hwf

theorem wf_erase (s : Sim) (e : Event) (t : Nat) (hwf : WF s) :
    WF { s with now := t, queue := s.queue.erase e } := by
  obtain ⟨h1, h2⟩ := hwf
  have hsub : List.Sublist (s.queue.erase e) s.queue := List.erase_sublist e s.queue
  constructor
  · exact List.Nodup.sublist (hsub.map Event.seq) h1
  · intro f hf
    exact h2 f (hsub.subset hf)

theorem isNext_unique (q : List Event) (hnd : (q.map Event.seq).Nodup)
    (e₁ e₂ : Event) (h₁ : IsNext e₁ q) (h₂ : IsNext e₂ q) : e₁ = e₂ := by
  have l₁ := h₁.2 e₂ h₂.1
  have l₂ := h₂.2 e₁ h₁.1
  have hseq : e₁.seq = e₂.seq := by
    rcases l₁ with l | ⟨lt, ls⟩ <;> rcases l₂ with m | ⟨mt, ms⟩ <;> omega
  exact List.inj_on_of_nodup_map hnd h₁.1 h₂.1 hseq

theorem relStep_det (s s₁ s₂ : Sim) (hwf : WF s)
    (h₁ : RelStep s s₁) (h₂ : RelStep s s₂) : s₁ = s₂ := by
  obtain ⟨e₁, hn₁, ht₁, hd₁⟩ := h₁
  obtain ⟨e₂, hn₂, ht₂, hd₂⟩ := h₂
  cases isNext_unique s.queue hwf.1 e₁ e₂ hn₁ hn₂
  exact Except.ok.inj (hd₁.symm.trans hd₂)

theorem relStep_wf (s s' : Sim) (hwf : WF s) (h : RelStep s s') : WF s' := by
  obtain ⟨e, -, -, hd⟩ := h
  exact dispatch_wf _ _ _ (wf_erase s e e.time hwf) hd

theorem relRun_det : ∀ (n : Nat) (s s₁ s₂ : Sim), WF s →
    RelRun n s s₁ → RelRun n s s₂ → s₁ = s₂ := by
  intro n
  induction n with
  | zero =>
    intro s s₁ s₂ _ h₁ h₂
    cases h₁
    cases h₂
    rfl
  | succ m ih =>
    intro s s₁ s₂ hwf h₁ h₂
    cases h₁ with
    | succ hs₁ hr₁ =>
      cases h₂ with
      | succ hs₂ hr₂ =>
        cases relStep_det s _ _ hwf hs₁ hs₂
        exact ih _ _ _ (relStep_wf s _ hwf hs₁) hr₁ hr₂

theorem initSim_wf : WF initSim := ⟨by decide, by decide⟩

/-- C8: the run is deterministic.  Scheduling assigns fresh, strictly
increasing sequence numbers, so the pending event minimal under
`(due_time, sequence)` is unique — simultaneous events resume in creation
order — and, the random draws being a function of the seeded generator
state threaded through the (pure) state, any two executions of the same
length from the program's initial state are identical, trace included. -/
theorem c8_deterministic :
    ∀ (n : Nat) (s₁ s₂ : Sim), RelRun n initSim s₁ → RelRun n initSim s₂ →
      s₁ = s₂ ∧ s₁.trace = s₂.trace := by
  intro n s₁ s₂ h₁ h₂
  have h := relRun_det n initSim s₁ s₂ initSim_wf h₁ h₂
  exact ⟨h, h ▸ rfl⟩

/-- Witness for C8: a concrete one-step relational run (resuming the
control process's first check at time 0) exists, and the theorem applied
to it twice yields equality. -/
theorem c8_witness :
    RelRun 1 initSim (simAt 1) ∧ (simAt 1).trace = (simAt 1).trace := by
  have hstep : RelStep initSim (simAt 1) := by
    refine ⟨⟨0, 0, .controlCheck⟩, by decide, by decide, ?_⟩
    rfl
  have hrun : RelRun 1 initSim (simAt 1) := RelRun.succ hstep (RelRun.zero _)
  exact ⟨hrun, (c8_deterministic 1 (simAt 1) (simAt 1) hrun hrun).2⟩

/-- C2 (counterexample): in the fixed-seed run the container's level
first drops below 20.0 liters at `t = 459.0` (918 half-seconds, level 12,
when car 5's get is granted), but the truck-call trace event fires at
`t = 460.0` (920 half-seconds) — a later poll instant, not the drop
instant. -/
theorem c2_counterexample :
    firstDrop = some (918, 12) ∧ truckCallTimes = [920] ∧ (918 : Nat) ≠ 920 :=
  ⟨by decide, by decide, by decide⟩

/-- C2 (amended): in the fixed-seed run the level first drops below 20.0
liters at `t = 459.0`, which is not a poll instant, and the unique
truck-call trace event fires at `t = 460.0`, the first poll check at or
after the drop (polls are spaced 10 time units, i.e. 20 half-seconds,
apart from time 0). -/
theorem c2_amended_call_at_next_poll :
    firstDrop = some (2 * 459, 12) ∧
    truckCallTimes = [2 * 460] ∧
    2 * 460 = 20 * ((2 * 459 + 19) / 20) ∧
    (2 * 459) % 20 ≠ 0 :=
  ⟨by decide, by decide, by decide, by decide⟩

/-- C7 (counterexample): in the fixed-seed run the truck's put is issued
with two gets waiting (43 and 38 liters), so immediately after the put —
which drains those waiters — the container's level is 119, not the
capacity 200. -/
theorem c7_counterexample :
    truckRefuelEvents = [(1520, 188)] ∧
    (simAt 69).fuelPump.level = 119 ∧ ((119 : Int) ≠ 200) :=
  ⟨by decide, by decide, by decide⟩

/-- C7 (amended): the truck-call fires at `t = 460.0` and the truck's
refuel at `t = 760.0`, exactly `TANK_TRUCK_TIME = 300` later; the put
amount is `capacity - level` at the truck's arrival (`188 = 200 - 12`);
the put raises the level to the capacity and then immediately grants the
two waiting gets (43 and 38 liters), leaving level `119 = 200 - 81`;
the level equals the capacity right after a put of `capacity - level`
exactly when no gets are waiting. -/
theorem c7_amended_truck_timing :
    truckCallTimes = [920] ∧
    truckRefuelEvents = [(1520, 188)] ∧
    1520 = 920 + 2 * TANK_TRUCK_TIME ∧
    (simAt 68).fuelPump.level = 12 ∧
    (188 : Int) = GAS_STATION_VOLUME - 12 ∧
    (simAt 68).fuelPump.getQ.map Prod.fst = [43, 38] ∧
    (simAt 69).fuelPump.level = 119 ∧
    (119 : Int) = GAS_STATION_VOLUME - (43 + 38) ∧
    (∀ (c : Container PC), c.getQ = [] → c.level ≤ c.capacity →
      containerPut c (c.capacity - c.level) = .ok ({ c with level := c.capacity }, [])) := by
  refine ⟨by decide, by decide, by decide, by decide, by decide, by decide,
    by decide, by decide, ?_⟩
  intro c hq hle
  have hc : ¬ (c.level + (c.capacity - c.level) > c.capacity) := by omega
  simp only [containerPut, if_neg hc, hq, drainAux]
  have harith : c.level + (c.capacity - c.level) = c.capacity := by omega
  rw [harith]


/-- Witness for C7's general conjunct at the concrete arrival state: a
put of `200 - 12` liters into the empty-queued container at level 12
restores the level to exactly 200. -/
theorem c7_witness :
    containerPut (Container.mk 200 12 ([] : List (Int × PC))) (200 - 12) =
      .ok (Container.mk 200 200 [], []) :=
  c7_amended_truck_timing.2.2.2.2.2.2.2.2
    (Container.mk 200 12 ([] : List (Int × PC))) rfl (by decide)

/-- C10: the fuel container is created full (`init = 200` of capacity
200); the first event the scheduler pops at time 0 is the control
process's threshold check (created before the car generator's start);
that check sees `level / capacity * 100 = 100`, so its condition
`< THRESHOLD` is false; after the two time-0 events the trace is empty —
no truck call at time 0 — the level is still 200, and every remaining
event is due strictly after time 0. -/
theorem c10_initial_full_no_dispatch_at_zero :
    initSim.fuelPump.level = initSim.fuelPump.capacity ∧
    initSim.fuelPump.level = 200 ∧
    popMin initSim.queue = some (⟨0, 0, .controlCheck⟩, [⟨0, 1, .genStart⟩]) ∧
    100 * initSim.fuelPump.level / initSim.fuelPump.capacity = 100 ∧
    ¬(100 * initSim.fuelPump.level < THRESHOLD * initSim.fuelPump.capacity) ∧
    (simAt 2).trace = [] ∧
    (simAt 2).fuelPump.level = 200 ∧
    (∀ ev ∈ (simAt 2).queue, 0 < ev.time) :=
  ⟨by decide, by decide, by decide, by decide, by decide, by decide, by decide,
   by decide⟩
